import Mathlib

/-!
Verification of the SmartBookPodcast pipeline (PDF → podcast script → speech).

The definitions below are shallow embeddings of the Python sources:

* `splitNL`, `joinSep`, `pyReplace`, `leadsWith`, `occursIn` model the Python
  string primitives `str.split('\n')`, `'\n'.join`, `str.replace`,
  `str.startswith` and the `in` operator on a text modelled as `List Char`.
* `packParagraphs` / `splitTextForTTS` embed
  `TextToSpeechService._split_text_for_tts` (src/tts_service.py), which is
  textually identical to `PdfToPodcastService._split_for_tts` (src/service.py).
* The filesystem effects of the speech path are modelled by `FS`, a partial map
  from paths to file data, threaded explicitly through the embedded functions.
-/

namespace SBP

/-- Text, as Python strings: a list of characters. -/
abbrev Str := List Char

/-- Python `s.startswith(pat)`: `pat` is an initial segment of `s`. -/
def leadsWith : Str → Str → Bool
  | [], _ => true
  | _ :: _, [] => false
  | a :: as, b :: bs => a == b && leadsWith as bs

/-- Python `pat in s`: `pat` occurs contiguously in `s`. -/
def occursIn (pat : Str) : Str → Bool
  | [] => leadsWith pat []
  | s@(_ :: rest) => leadsWith pat s || occursIn pat rest

/-- Python `s.replace(pat, rep)` for a nonempty `pat`: replace every
non-overlapping occurrence, scanning left to right.  (Python's behaviour for an
empty `pat` — interleaving `rep` everywhere — is not modelled; every call in
the sources uses a nonempty `pat`.) -/
def pyReplace (pat rep : Str) : Str → Str
  | [] => []
  | c :: rest =>
    if pat ≠ [] ∧ leadsWith pat (c :: rest) = true then
      rep ++ pyReplace pat rep ((c :: rest).drop pat.length)
    else
      c :: pyReplace pat rep rest
termination_by s => s.length
decreasing_by
  · rename_i h
    obtain ⟨h1, _⟩ := h
    have hp : 0 < pat.length := List.length_pos.mpr h1
    simp only [List.length_drop, List.length_cons]
    omega
  · simp

/-- Python `text.split('\n')`: the newline-separated pieces, keeping empty
pieces (`"\n".split('\n') = ["", ""]`). -/
def splitNL : Str → List Str
  | [] => [[]]
  | c :: cs =>
    if c = '\n' then [] :: splitNL cs
    else
      match splitNL cs with
      | [] => [[c]]
      | p :: ps => (c :: p) :: ps

/-- Python `sep.join(pieces)`. -/
def joinSep (sep : Str) : List Str → Str
  | [] => []
  | [x] => x
  | x :: y :: ys => x ++ sep ++ joinSep sep (y :: ys)

/-- The greedy paragraph-packing loop of
`TextToSpeechService._split_text_for_tts` / `PdfToPodcastService._split_for_tts`:
state is the accumulated `chunks` list and the `current_chunk` being grown.
A paragraph that would push `len(current_chunk) + len(paragraph)` past
`max_length` closes the current chunk (if nonempty, Python truthiness) and
starts a new one; otherwise it is appended with a joining `"\n"`. -/
def packParagraphs (maxLength : Nat) : List Str → List Str → Str → List Str
  | [], chunks, cur => if cur = [] then chunks else chunks ++ [cur]
  | p :: ps, chunks, cur =>
    if maxLength < cur.length + p.length then
      packParagraphs maxLength ps (if cur = [] then chunks else chunks ++ [cur]) p
    else
      packParagraphs maxLength ps chunks (if cur = [] then p else cur ++ '\n' :: p)

/-- `TextToSpeechService._split_text_for_tts(text, max_length)` (and the
identical `PdfToPodcastService._split_for_tts`): split on `'\n'` and greedily
pack paragraphs. -/
def splitTextForTTS (text : Str) (maxLength : Nat) : List Str :=
  packParagraphs maxLength (splitNL text) [] []

/-- The chunk count of `packParagraphs`, computed from paragraph lengths only
(the loop's control flow depends only on `len(current_chunk)` and
`len(paragraph)`; `current_chunk` is empty exactly when its length is 0). -/
def chunkCountAux (L : Nat) : List Nat → Nat → Nat
  | [], c => if 0 < c then 1 else 0
  | b :: bs, c =>
    if L < c + b then
      (if 0 < c then 1 else 0) + chunkCountAux L bs b
    else
      chunkCountAux L bs (if c = 0 then b else c + 1 + b)

/- Basic facts about `splitNL`. -/

theorem splitNL_ne_nil (t : Str) : splitNL t ≠ [] := by
  cases t with
  | nil => simp [splitNL]
  | cons c cs =>
    simp only [splitNL]
    split
    · simp
    · split <;> simp

theorem splitNL_no_newline (t : Str) : ∀ p ∈ splitNL t, '\n' ∉ p := by
  induction t with
  | nil => simp [splitNL]
  | cons c cs ih =>
    simp only [splitNL]
    split
    · intro p hp
      simp only [List.mem_cons] at hp
      rcases hp with hp | hp
      · simp [hp]
      · exact ih p hp
    · rename_i hc
      rcases h : splitNL cs with _ | ⟨q, qs⟩
      · exact absurd h (splitNL_ne_nil cs)
      · intro p hp
        simp only [List.mem_cons] at hp
        rcases hp with hp | hp
        · subst hp
          have hq : '\n' ∉ q := ih q (by rw [h]; exact List.mem_cons_self q qs)
          simp only [List.mem_cons]
          rintro (h1 | h1)
          · exact hc h1.symm
          · exact hq h1
        · exact ih p (by rw [h]; exact List.mem_cons_of_mem q hp)

theorem joinSep_cons (sep x : Str) (l : List Str) (h : l ≠ []) :
    joinSep sep (x :: l) = x ++ sep ++ joinSep sep l := by
  cases l with
  | nil => exact absurd rfl h
  | cons y ys => rfl

theorem joinSep_splitNL (t : Str) : joinSep ['\n'] (splitNL t) = t := by
  induction t with
  | nil => simp [splitNL, joinSep]
  | cons c cs ih =>
    simp only [splitNL]
    split
    · rename_i hc
      rw [joinSep_cons _ _ _ (splitNL_ne_nil cs), ih, hc]
      simp
    · rcases h : splitNL cs with _ | ⟨q, qs⟩
      · exact absurd h (splitNL_ne_nil cs)
      · rw [h] at ih
        cases qs with
        | nil => simp [joinSep] at ih ⊢; simp [ih]
        | cons r rs =>
          rw [joinSep_cons _ _ _ (by simp)] at ih ⊢
          simp only [List.cons_append]
          rw [ih]

/- Round-trip: packing only regroups paragraphs, and `joinSep` flattens the
regrouping. -/

theorem joinSep_merge (sep : Str) :
    ∀ (xs : List Str) (a b : Str) (ys : List Str),
      joinSep sep (xs ++ (a ++ sep ++ b) :: ys) = joinSep sep (xs ++ a :: b :: ys) := by
  intro xs
  induction xs with
  | nil =>
    intro a b ys
    cases ys with
    | nil => simp [joinSep, List.append_assoc]
    | cons y ys =>
      rw [List.nil_append, List.nil_append, joinSep_cons sep _ (y :: ys) (by simp),
        joinSep_cons sep a (b :: y :: ys) (by simp), joinSep_cons sep b (y :: ys) (by simp)]
      simp [List.append_assoc]
  | cons x xs ih =>
    intro a b ys
    rw [List.cons_append, List.cons_append, joinSep_cons _ _ _ (by simp),
      joinSep_cons _ _ _ (by simp), ih]

theorem packParagraphs_nil_ne (L : Nat) (chunks : List Str) (cur : Str)
    (hcur : cur ≠ []) : packParagraphs L [] chunks cur = chunks ++ [cur] := by
  simp [packParagraphs, hcur]

theorem packParagraphs_cons_flush (L : Nat) (p : Str) (ps chunks : List Str)
    (cur : Str) (h : L < cur.length + p.length) (hcur : cur ≠ []) :
    packParagraphs L (p :: ps) chunks cur =
      packParagraphs L ps (chunks ++ [cur]) p := by
  simp [packParagraphs, h, hcur]

theorem packParagraphs_cons_fit (L : Nat) (p : Str) (ps chunks : List Str)
    (cur : Str) (h : ¬ L < cur.length + p.length) (hcur : cur ≠ []) :
    packParagraphs L (p :: ps) chunks cur =
      packParagraphs L ps chunks (cur ++ '\n' :: p) := by
  simp [packParagraphs, h, hcur]

theorem pack_join (L : Nat) :
    ∀ (ps : List Str) (chunks : List Str) (cur : Str),
      (∀ p ∈ ps, p ≠ []) → cur ≠ [] →
      joinSep ['\n'] (packParagraphs L ps chunks cur) =
        joinSep ['\n'] (chunks ++ cur :: ps) := by
  intro ps
  induction ps with
  | nil =>
    intro chunks cur _ hcur
    rw [packParagraphs_nil_ne L chunks cur hcur]
  | cons p ps ih =>
    intro chunks cur hps hcur
    have hp : p ≠ [] := hps p (List.mem_cons_self p ps)
    have hps' : ∀ q ∈ ps, q ≠ [] := fun q hq => hps q (List.mem_cons_of_mem p hq)
    by_cases h : L < cur.length + p.length
    · rw [packParagraphs_cons_flush L p ps chunks cur h hcur, ih _ _ hps' hp]
      simp [List.append_assoc]
    · rw [packParagraphs_cons_fit L p ps chunks cur h hcur,
        ih _ _ hps' (by simp [hcur])]
      have hsplit : cur ++ '\n' :: p = cur ++ ['\n'] ++ p := by simp
      rw [hsplit, joinSep_merge]

theorem pack_start (L : Nat) (p : Str) (ps : List Str) :
    packParagraphs L (p :: ps) [] [] = packParagraphs L ps [] p := by
  simp [packParagraphs]

/- Size bound: a chunk is never longer than `L + 1` (the greedy test ignores
the joining newline, so the bound `L` itself can be exceeded by one) unless it
is one paragraph of the input emitted verbatim. -/

theorem pack_bound (L : Nat) (paras : List Str) :
    ∀ (ps : List Str) (chunks : List Str) (cur : Str),
      (∀ p ∈ ps, p ∈ paras) →
      (∀ c ∈ chunks, c.length ≤ L + 1 ∨ c ∈ paras) →
      (cur.length ≤ L + 1 ∨ cur ∈ paras) →
      ∀ c ∈ packParagraphs L ps chunks cur, c.length ≤ L + 1 ∨ c ∈ paras := by
  intro ps
  induction ps with
  | nil =>
    intro chunks cur _ hchunks hcur c hc
    simp only [packParagraphs] at hc
    split at hc
    · exact hchunks c hc
    · rcases List.mem_append.mp hc with h | h
      · exact hchunks c h
      · simp only [List.mem_singleton] at h
        exact h ▸ hcur
  | cons p ps ih =>
    intro chunks cur hps hchunks hcur c hc
    have hp : p ∈ paras := hps p (List.mem_cons_self p ps)
    have hps' : ∀ q ∈ ps, q ∈ paras := fun q hq => hps q (List.mem_cons_of_mem p hq)
    simp only [packParagraphs] at hc
    split at hc
    · refine ih _ _ hps' ?_ (Or.inr hp) c hc
      intro d hd
      split at hd
      · exact hchunks d hd
      · rcases List.mem_append.mp hd with h | h
        · exact hchunks d h
        · simp only [List.mem_singleton] at h
          exact h ▸ hcur
    · rename_i hfit
      refine ih _ _ hps' hchunks ?_ c hc
      split
      · exact Or.inr hp
      · left
        simp only [List.length_append, List.length_cons]
        omega

/- Chunk count: `packParagraphs` counted through paragraph lengths only. -/

theorem pack_length (L : Nat) :
    ∀ (ps : List Str) (chunks : List Str) (cur : Str),
      (packParagraphs L ps chunks cur).length =
        chunks.length + chunkCountAux L (ps.map List.length) cur.length := by
  intro ps
  induction ps with
  | nil =>
    intro chunks cur
    simp only [packParagraphs, List.map_nil, chunkCountAux]
    split
    · rename_i h
      rw [h]
      simp
    · rename_i h
      rw [if_pos (List.length_pos.mpr h)]
      simp
  | cons p ps ih =>
    intro chunks cur
    simp only [packParagraphs, List.map_cons, chunkCountAux]
    split
    · rw [ih]
      split
      · rename_i h
        rw [h, if_neg (by simp)]
        simp
      · rename_i h
        rw [if_pos (List.length_pos.mpr h)]
        simp [Nat.add_assoc, Nat.add_comm 1]
    · rw [ih]
      congr 1
      split
      · rename_i h
        rw [h]
        simp
      · rename_i h
        rw [if_neg (by simpa using List.length_pos.mpr h |>.ne')]
        simp [Nat.add_comm, Nat.add_left_comm]

/- Monotonicity of the chunk count in the running chunk length, with a jump of
at most one, and antitonicity in the capacity. -/

theorem chunkCountAux_state_mono (L : Nat) :
    ∀ (bs : List Nat) (c c' : Nat), c' ≤ c →
      chunkCountAux L bs c' ≤ chunkCountAux L bs c ∧
        chunkCountAux L bs c ≤ chunkCountAux L bs c' + 1 := by
  intro bs
  induction bs with
  | nil =>
    intro c c' hle
    simp only [chunkCountAux]
    constructor <;> (split <;> split <;> omega)
  | cons b bs ih =>
    intro c c' hle
    simp only [chunkCountAux]
    by_cases h2 : L < c + b
    · by_cases h1 : L < c' + b
      · rw [if_pos h1, if_pos h2]
        have := ih b b le_rfl
        constructor <;> (split <;> split <;> omega)
      · -- c' still fits, c overflows; c > 0 since c' ≤ c and the tests differ
        rw [if_neg h1, if_pos h2]
        have hc : 0 < c := by omega
        rw [if_pos hc]
        have hmerge : b ≤ (if c' = 0 then b else c' + 1 + b) := by split <;> omega
        have h3 := ih (if c' = 0 then b else c' + 1 + b) b hmerge
        omega
    · have h1 : ¬ L < c' + b := by omega
      rw [if_neg h1, if_neg h2]
      refine ih _ _ ?_
      split <;> split <;> omega

theorem chunkCountAux_cap_anti (L1 L2 : Nat) (hL : L1 ≤ L2) :
    ∀ (bs : List Nat) (c : Nat), chunkCountAux L2 bs c ≤ chunkCountAux L1 bs c := by
  intro bs
  induction bs with
  | nil => intro c; simp [chunkCountAux]
  | cons b bs ih =>
    intro c
    simp only [chunkCountAux]
    by_cases h2 : L2 < c + b
    · rw [if_pos h2, if_pos (by omega : L1 < c + b)]
      have := ih b
      omega
    · rw [if_neg h2]
      by_cases h1 : L1 < c + b
      · rw [if_pos h1]
        have hc : c = 0 ∨ 0 < c := by omega
        rcases hc with hc | hc
        · subst hc
          simpa using ih b
        · rw [if_pos hc, if_neg (by omega : ¬ c = 0)]
          have ha := ih (c + 1 + b)
          have hb := (chunkCountAux_state_mono L1 bs (c + 1 + b) b (by omega)).2
          omega
      · rw [if_neg h1]
        exact ih _

/-- C2 (counterexample): the round-trip law as stated fails.  For the text
`"\n"` (two empty paragraphs) and `L = 1`, the chunker drops both empty
paragraphs and returns no chunks, so the newline-join of the chunks is `""`,
not `"\n"`. -/
theorem claim_c2_counterexample :
    ¬ joinSep ['\n'] (splitTextForTTS "\n".toList 1) = "\n".toList := by
  decide

/-- C2 (amended): for every text `T` and maximum length `L ≥ 1` such that every
newline-separated paragraph of `T` is nonempty, joining the chunks returned by
the TTS chunker with newlines reproduces `T` exactly.  (Empty paragraphs —
leading, trailing or consecutive newlines — can be silently dropped, which is
the only failure mode of the original claim.) -/
theorem claim_c2_roundtrip (T : Str) (L : Nat) (_hL : 1 ≤ L)
    (hp : ∀ p ∈ splitNL T, p ≠ []) :
    joinSep ['\n'] (splitTextForTTS T L) = T := by
  rcases h : splitNL T with _ | ⟨p, ps⟩
  · exact absurd h (splitNL_ne_nil T)
  · have hp' : p ≠ [] := hp p (by rw [h]; exact List.mem_cons_self p ps)
    have hps' : ∀ q ∈ ps, q ≠ [] := fun q hq =>
      hp q (by rw [h]; exact List.mem_cons_of_mem p hq)
    unfold splitTextForTTS
    rw [h, pack_start, pack_join L ps [] p hps' hp', List.nil_append, ← h,
      joinSep_splitNL]

/-- C2 (witness): the amended round-trip law at the concrete input
`T = "a\nb"`, `L = 1`. -/
theorem claim_c2_roundtrip_witness :
    (1 ≤ 1 ∧ ∀ p ∈ splitNL "a\nb".toList, p ≠ []) ∧
      joinSep ['\n'] (splitTextForTTS "a\nb".toList 1) = "a\nb".toList :=
  ⟨⟨le_refl 1, by decide⟩,
    claim_c2_roundtrip ("a\nb".toList) 1 (le_refl 1) (by decide)⟩

/-- C3 (counterexample): the size bound as stated fails.  For `T = "ab\nc"` and
`L = 3` the chunker returns the single chunk `"ab\nc"` of length 4 > 3, and
that chunk is not a single paragraph of `T` (the paragraphs are `"ab"` and
`"c"`): the greedy test `len(current_chunk) + len(paragraph) > max_length`
does not count the joining newline that is then inserted. -/
theorem claim_c3_counterexample :
    ¬ (∀ c ∈ splitTextForTTS "ab\nc".toList 3,
        c.length ≤ 3 ∨ (3 < c.length ∧ c ∈ splitNL "ab\nc".toList)) := by
  decide

/-- C3 (amended): every chunk returned by the TTS chunker has length at most
`L + 1` (the greedy test ignores the joining newline, so the stated bound `L`
can be exceeded by exactly one), except a chunk consisting of a single
paragraph of the text, emitted verbatim, whose own length exceeds `L + 1`. -/
theorem claim_c3_bound (T : Str) (L : Nat) (_hL : 1 ≤ L) :
    ∀ c ∈ splitTextForTTS T L,
      c.length ≤ L + 1 ∨ (L + 1 < c.length ∧ c ∈ splitNL T) := by
  intro c hc
  have h := pack_bound L (splitNL T) (splitNL T) [] []
    (fun p hp => hp) (by simp) (Or.inl (by simp)) c hc
  rcases h with h | h
  · exact Or.inl h
  · by_cases hlen : c.length ≤ L + 1
    · exact Or.inl hlen
    · exact Or.inr ⟨by omega, h⟩

/-- C3 (witness): the amended bound at the concrete input `T = "ab\nc"`,
`L = 3`, chunk `"ab\nc"` (length 4 = L + 1). -/
theorem claim_c3_bound_witness :
    (1 ≤ 3 ∧ "ab\nc".toList ∈ splitTextForTTS "ab\nc".toList 3) ∧
      ("ab\nc".toList.length ≤ 3 + 1 ∨
        (3 + 1 < "ab\nc".toList.length ∧ "ab\nc".toList ∈ splitNL "ab\nc".toList)) :=
  ⟨⟨by decide, by decide⟩,
    claim_c3_bound ("ab\nc".toList) 3 (by decide) ("ab\nc".toList) (by decide)⟩

/-- C9 (confirmed): for a fixed text `T` and maximum lengths `L1 ≤ L2` (both
≥ 1), the TTS chunker with the smaller limit `L1` produces at least as many
chunks as with `L2`: reducing the limit never decreases the chunk count. -/
theorem claim_c9_monotone (T : Str) (L1 L2 : Nat) (_h1 : 1 ≤ L1) (hle : L1 ≤ L2) :
    (splitTextForTTS T L2).length ≤ (splitTextForTTS T L1).length := by
  unfold splitTextForTTS
  rw [pack_length L1, pack_length L2]
  simpa using chunkCountAux_cap_anti L1 L2 hle (List.map List.length (splitNL T)) 0

/-- C9 (witness): monotonicity at the concrete input `T = "a\nb"`, `L1 = 1`,
`L2 = 2`. -/
theorem claim_c9_monotone_witness :
    (1 ≤ 1 ∧ 1 ≤ 2) ∧
      (splitTextForTTS "a\nb".toList 2).length ≤ (splitTextForTTS "a\nb".toList 1).length :=
  ⟨⟨by decide, by decide⟩,
    claim_c9_monotone ("a\nb".toList) 1 2 (by decide) (by decide)⟩

/-! ## Filesystem model

The speech-synthesis path of src/tts_service.py writes, renames and removes
files.  A filesystem is a partial map from paths to file contents; every
embedded operation threads it explicitly. -/

/-- Contents of a file: raw audio bytes from the TTS endpoint, or text. -/
inductive FileData where
  | audio (bytes : List Nat)
  | text (s : Str)
deriving DecidableEq

/-- A filesystem: a partial map from paths to contents. -/
def FS : Type := Str → Option FileData

/-- The empty filesystem. -/
def fsEmpty : FS := fun _ => none

/-- `open(p, "wb") ... write(d)`: create or overwrite the file at `p`. -/
def fsWrite (p : Str) (d : FileData) (fs : FS) : FS :=
  fun q => if q = p then some d else fs q

/-- `os.remove(p)` (the sources only call it on paths known to exist). -/
def fsRemove (p : Str) (fs : FS) : FS :=
  fun q => if q = p then none else fs q

/-- `if os.path.exists(p): os.remove(p)`. -/
def removeIfExists (p : Str) (fs : FS) : FS :=
  if (fs p).isSome then fsRemove p fs else fs

/-- `os.rename(src, dst)`. -/
def fsRename (src dst : Str) (fs : FS) : FS :=
  fun q => if q = dst then fs src else if q = src then none else fs q

/-- `for p in ps: if os.path.exists(p): os.remove(p)`. -/
def removeEach (ps : List Str) (fs : FS) : FS :=
  ps.foldl (fun acc p => removeIfExists p acc) fs

theorem removeIfExists_eq (p : Str) (fs : FS) :
    removeIfExists p fs = fsRemove p fs := by
  unfold removeIfExists fsRemove
  split
  · rfl
  · rename_i h
    funext q
    by_cases hq : q = p
    · subst hq
      simpa using Option.not_isSome_iff_eq_none.mp h
    · simp [hq]

/-! ## TextToSpeechService (src/tts_service.py) -/

/-- Outcome of one `requests.post` to the speech endpoint: an HTTP response
with a status code and body bytes, or a network failure (unreachable endpoint,
which raises in Python). -/
inductive PostResult where
  | resp (status : Nat) (content : List Nat)
  | netFail

/-- The ambient world an invocation of `TextToSpeechService` runs against:
the outcome of the i-th POST of the invocation, whether the external `ffmpeg`
encoder is available and succeeds, and the environment probed by the local
fallback (`os.name == 'posix'`, the `/usr/bin/say` binary, the name picked by
`tempfile.NamedTemporaryFile`, and the audio `say` produces). -/
structure TTSEnv where
  post : Nat → PostResult
  encoderOk : Bool
  posixName : Bool
  sayPresent : Bool
  sayOk : Bool
  sayBytes : List Nat
  tmpName : Str

/-- The temporary fragment path `f"{output_path}_chunk_{i}.mp3"`. -/
def chunkFile (outputPath : Str) (i : Nat) : Str :=
  outputPath ++ "_chunk_".toList ++ (Nat.toDigits 10 i ++ ".mp3".toList)

/-- The fixed scratch path `"filelist.txt"` used by `_combine_audio_files`. -/
def filelistPath : Str := "filelist.txt".toList

/-- The list file written for ffmpeg: one `file '<path>'` line per fragment. -/
def filelistContent (files : List Str) : Str :=
  (files.map (fun f => "file \x27".toList ++ f ++ "\x27\n".toList)).flatten

/-- The external encoder's contract (spec §6): `ffmpeg -f concat -c copy`
concatenates the listed files' audio bytes in order.  (The encoder itself is an
external subprocess; only its effect is modelled.) -/
def concatContents (fs : FS) (files : List Str) : List Nat :=
  (files.map (fun f =>
    match fs f with
    | some (FileData.audio b) => b
    | _ => [])).flatten

/-- `TextToSpeechService._combine_audio_files`: write `filelist.txt`, run
ffmpeg, remove `filelist.txt`; on any failure (missing binary or nonzero exit,
both raised by `subprocess.run(..., check=True)`) the except-branch renames the
first fragment to the output path if it exists.  Note that on the failure path
`filelist.txt` has already been written and is not removed. -/
def combineAudioFiles (encoderOk : Bool) (audioFiles : List Str)
    (outputPath : Str) (fs : FS) : FS :=
  let fs1 := fsWrite filelistPath (FileData.text (filelistContent audioFiles)) fs
  if encoderOk then
    fsRemove filelistPath
      (fsWrite outputPath (FileData.audio (concatContents fs1 audioFiles)) fs1)
  else
    match audioFiles with
    | [] => fs1
    | f :: _ => if (fs1 f).isSome then fsRename f outputPath fs1 else fs1

/-- The `while "  " in text: text = text.replace("  ", " ")` loop of
`_enhance_speech_dynamics`, run on fuel.  Each pass of the Python loop strictly
shortens the text, so fuel equal to the text's length reaches the fixpoint. -/
def collapseSpaces : Nat → Str → Str
  | 0, t => t
  | fuel + 1, t =>
    if occursIn "  ".toList t then
      collapseSpaces fuel (pyReplace "  ".toList " ".toList t)
    else t

/-- `TextToSpeechService._enhance_speech_dynamics(text, voice)`: the chain of
`str.replace` rewrites applied to a chunk before it is sent to the endpoint. -/
def enhanceSpeechDynamics (text voice : Str) : Str :=
  let t := pyReplace ", right.".toList ", right?".toList text
  let t := pyReplace ", correct.".toList ", correct?".toList t
  let t := pyReplace " significant increase".toList " significant increase!".toList t
  let t := pyReplace " remarkable growth".toList " remarkable growth!".toList t
  let t := pyReplace ". And".toList ". ...And".toList t
  let t := pyReplace ". But".toList ". ...But".toList t
  let t := pyReplace " however ".toList ", however, ".toList t
  let t := pyReplace " therefore ".toList ", therefore, ".toList t
  let t := if occursIn "increased by".toList t then
      pyReplace "increased by".toList "*increased* by".toList t
    else t
  let t := if occursIn "percent".toList t then
      pyReplace "percent".toList "*percent*".toList t
    else t
  let t := if voice = "onyx".toList then
      let t := pyReplace "That\x27s right".toList "That\x27s absolutely right".toList t
      let t := pyReplace "very good".toList "*very* good".toList t
      let t := pyReplace "I agree".toList "I quite agree".toList t
      let t := pyReplace "looking at".toList "looking *carefully* at".toList t
      let t := pyReplace ". What".toList ". ...What".toList t
      pyReplace ". Now,".toList ". ...Now,".toList t
    else if voice = "nova".toList then
      let t := pyReplace "interesting".toList "*really* interesting".toList t
      let t := pyReplace "important".toList "*critically* important".toList t
      let t := pyReplace "strategic".toList "*strategic*".toList t
      let t := pyReplace "we should consider".toList "shouldn\x27t we consider".toList t
      let t := pyReplace "this suggests".toList "this suggests, don\x27t you think".toList t
      pyReplace ". The".toList "... The".toList t
    else t
  let t := collapseSpaces t.length t
  let t := pyReplace "?..".toList "?.".toList t
  let t := pyReplace "!..".toList "!.".toList t
  pyReplace "...".toList "...".toList t

/-- Outcome of the per-chunk POST loop of `_generate_audio_openai`: normal
completion with the temp files written so far, or a raised exception (a POST
that failed at the network level), which the enclosing `try` catches. -/
inductive LoopOut where
  | done (fs : FS) (temps : List Str) (log : List Str)
  | raised (fs : FS) (log : List Str)

/-- The `for i, chunk in enumerate(chunks)` loop of `_generate_audio_openai`:
each chunk is enhanced, POSTed exactly once; a 200 response is saved to
`f"{output_path}_chunk_{i}.mp3"` and collected, a non-200 response is only
printed (the chunk is skipped, no retry), a network failure raises.  `log`
records the text sent by each POST, in order. -/
def ttsLoop (post : Nat → PostResult) (voice outputPath : Str) :
    List Str → Nat → FS → List Str → List Str → LoopOut
  | [], _, fs, temps, log => .done fs temps log
  | chunk :: rest, i, fs, temps, log =>
    let sent := enhanceSpeechDynamics chunk voice
    match post i with
    | .resp status content =>
      if status = 200 then
        ttsLoop post voice outputPath rest (i + 1)
          (fsWrite (chunkFile outputPath i) (FileData.audio content) fs)
          (temps ++ [chunkFile outputPath i]) (log ++ [sent])
      else
        ttsLoop post voice outputPath rest (i + 1) fs temps (log ++ [sent])
    | .netFail => .raised fs (log ++ [sent])

/-- Result of one `TextToSpeechService` audio-generation call: the filesystem
after the call, the returned path, and the texts POSTed to the endpoint. -/
structure TTSRun where
  fs : FS
  ret : Str
  log : List Str

/-- `TextToSpeechService._generate_audio_openai`: split the text with
`max_chunk_size = 4000`, POST each chunk, then — mirroring the source's
`if len(temp_files) > 1 / elif == 1 / else` — combine the fragments and remove
the temp files, or rename the single fragment, or (no audio at all) write the
script to `output_path.replace('.mp3', '.txt')` and return that text path.
A raised network error lands in the enclosing `except`, which also writes the
text file and returns the text path.  The function never raises. -/
def generateAudioOpenAI (env : TTSEnv) (text outputPath voice : Str)
    (fs : FS) : TTSRun :=
  let chunks := splitTextForTTS text 4000
  match ttsLoop env.post voice outputPath chunks 0 fs [] [] with
  | .raised fs1 log =>
    let tp := pyReplace ".mp3".toList ".txt".toList outputPath
    ⟨fsWrite tp (FileData.text text) fs1, tp, log⟩
  | .done fs1 temps log =>
    match temps with
    | t1 :: t2 :: ts =>
      let fs2 := combineAudioFiles env.encoderOk (t1 :: t2 :: ts) outputPath fs1
      ⟨removeEach (t1 :: t2 :: ts) fs2, outputPath, log⟩
    | [t] => ⟨fsRename t outputPath fs1, outputPath, log⟩
    | [] =>
      let tp := pyReplace ".mp3".toList ".txt".toList outputPath
      ⟨fsWrite tp (FileData.text text) fs1, tp, log⟩

/-- `TextToSpeechService._generate_audio_local`: write the text to a temp
file; on a posix system with `/usr/bin/say` run `say` (writing the output
file), otherwise — or if `say` fails — fall back to writing
`output_path.replace('.mp3', '.txt')`; the `finally` always removes the temp
file. -/
def generateAudioLocal (env : TTSEnv) (text outputPath : Str) (fs : FS) :
    FS × Str :=
  let fs1 := fsWrite env.tmpName (FileData.text text) fs
  if env.posixName && env.sayPresent then
    if env.sayOk then
      (removeIfExists env.tmpName
        (fsWrite outputPath (FileData.audio env.sayBytes) fs1), outputPath)
    else
      let tp := pyReplace ".mp3".toList ".txt".toList outputPath
      (removeIfExists env.tmpName (fsWrite tp (FileData.text text) fs1), tp)
  else
    let tp := pyReplace ".mp3".toList ".txt".toList outputPath
    (removeIfExists env.tmpName (fsWrite tp (FileData.text text) fs1), tp)

/-- `TextToSpeechService.generate_audio(text, output_path, voice)`: dispatch
on the `service` field; `"openai"` and `"local"` run the respective generators,
anything else raises `ValueError(f"Unsupported TTS service: {self.service}")`.
The result is the filesystem, the POST log, and either the returned path or
the raised error message. -/
def generateAudio (env : TTSEnv) (service : Str) (text outputPath voice : Str)
    (fs : FS) : FS × List Str × Except Str Str :=
  if service = "openai".toList then
    let r := generateAudioOpenAI env text outputPath voice fs
    (r.fs, r.log, Except.ok r.ret)
  else if service = "local".toList then
    let r := generateAudioLocal env text outputPath fs
    (r.1, [], Except.ok r.2)
  else
    (fs, [], Except.error ("Unsupported TTS service: ".toList ++ service))

/-! ## Path arithmetic

The fragment paths `f"{output_path}_chunk_{i}.mp3"` are distinct from the
output path, from `"filelist.txt"` and from each other. -/

theorem ne_chunkFile (out : Str) (i : Nat) : out ≠ chunkFile out i := by
  intro h
  have hlen := congrArg List.length h
  have h7 : ("_chunk_".toList).length = 7 := rfl
  have h4 : (".mp3".toList).length = 4 := rfl
  simp only [chunkFile, List.length_append, h7, h4] at hlen
  omega

theorem chunkFile_getLast (out : Str) (i : Nat) :
    (chunkFile out i).getLast? = some '3' := by
  unfold chunkFile
  rw [List.getLast?_append, List.getLast?_append]
  rfl

theorem chunkFile_ne_filelist (out : Str) (i : Nat) :
    chunkFile out i ≠ filelistPath := by
  intro h
  have h2 := congrArg List.getLast? h
  rw [chunkFile_getLast] at h2
  have h3 : filelistPath.getLast? = some 't' := by decide
  rw [h3] at h2
  simp at h2

theorem chunkFile_ne (out : Str) (i j : Nat)
    (h : Nat.toDigits 10 i ++ ".mp3".toList ≠ Nat.toDigits 10 j ++ ".mp3".toList) :
    chunkFile out i ≠ chunkFile out j := by
  intro he
  unfold chunkFile at he
  rw [List.append_assoc, List.append_assoc] at he
  exact h (List.append_cancel_left (List.append_cancel_left he))

/-- C10 (confirmed): calling `TextToSpeechService.generate_audio` with a
`service` field that is neither `"openai"` nor `"local"` raises
`ValueError(f"Unsupported TTS service: {self.service}")` — the message names
the unsupported service — with the filesystem unchanged (no file written) and
an empty POST log (no remote call). -/
theorem claim_c10_unsupported (env : TTSEnv) (service text outputPath voice : Str)
    (fs : FS) (h1 : service ≠ "openai".toList) (h2 : service ≠ "local".toList) :
    generateAudio env service text outputPath voice fs =
      (fs, [], Except.error ("Unsupported TTS service: ".toList ++ service)) := by
  unfold generateAudio
  rw [if_neg h1, if_neg h2]

/-- C10 (witness): the dispatch error at the concrete service `"elevenlabs"`. -/
theorem claim_c10_unsupported_witness :
    ("elevenlabs".toList ≠ "openai".toList ∧ "elevenlabs".toList ≠ "local".toList) ∧
      generateAudio ⟨fun _ => PostResult.netFail, false, false, false, false, [], []⟩
        "elevenlabs".toList "hi".toList "out.mp3".toList "alloy".toList fsEmpty =
        (fsEmpty, [], Except.error ("Unsupported TTS service: ".toList ++ "elevenlabs".toList)) :=
  ⟨⟨by decide, by decide⟩,
    claim_c10_unsupported ⟨fun _ => PostResult.netFail, false, false, false, false, [], []⟩
      "elevenlabs".toList "hi".toList "out.mp3".toList "alloy".toList fsEmpty
      (by decide) (by decide)⟩

/-! ## Total synthesis failure (C1) -/

/-- If every POST of the run fails (non-200 response, or a network failure
that raises), the loop writes nothing and collects no temp file. -/
theorem ttsLoop_all_fail (post : Nat → PostResult)
    (hpost : ∀ i st content, post i = .resp st content → st ≠ 200)
    (voice out : Str) :
    ∀ (cs : List Str) (i : Nat) (fs : FS) (temps log : List Str),
      (∃ log2, ttsLoop post voice out cs i fs temps log = .raised fs log2) ∨
      (∃ log2, ttsLoop post voice out cs i fs temps log = .done fs temps log2) := by
  intro cs
  induction cs with
  | nil =>
    intro i fs temps log
    exact Or.inr ⟨log, rfl⟩
  | cons c cs ih =>
    intro i fs temps log
    cases h : post i with
    | resp st content =>
      have hne : st ≠ 200 := hpost i st content h
      have hstep : ttsLoop post voice out (c :: cs) i fs temps log =
          ttsLoop post voice out cs (i + 1) fs temps
            (log ++ [enhanceSpeechDynamics c voice]) := by
        simp [ttsLoop, h, hne]
      rw [hstep]
      exact ih (i + 1) fs temps (log ++ [enhanceSpeechDynamics c voice])
    | netFail =>
      exact Or.inl ⟨log ++ [enhanceSpeechDynamics c voice], by simp [ttsLoop, h]⟩

/-! ## Partial synthesis (C4) and encoder fallback (C6) -/

theorem ttsLoop_nil {post : Nat → PostResult} {voice out : Str} {i : Nat}
    {fs : FS} {temps log : List Str} :
    ttsLoop post voice out [] i fs temps log = .done fs temps log := rfl

theorem ttsLoop_cons_ok {post : Nat → PostResult} {voice out c : Str}
    {cs : List Str} {i : Nat} {fs : FS} {temps log : List Str} {b : List Nat}
    (h : post i = PostResult.resp 200 b) :
    ttsLoop post voice out (c :: cs) i fs temps log =
      ttsLoop post voice out cs (i + 1)
        (fsWrite (chunkFile out i) (FileData.audio b) fs)
        (temps ++ [chunkFile out i]) (log ++ [enhanceSpeechDynamics c voice]) := by
  simp [ttsLoop, h]

theorem ttsLoop_cons_skip {post : Nat → PostResult} {voice out c : Str}
    {cs : List Str} {i : Nat} {fs : FS} {temps log : List Str} {st : Nat}
    {b : List Nat} (h : post i = PostResult.resp st b) (hst : st ≠ 200) :
    ttsLoop post voice out (c :: cs) i fs temps log =
      ttsLoop post voice out cs (i + 1) fs temps
        (log ++ [enhanceSpeechDynamics c voice]) := by
  simp [ttsLoop, h, hst]

/-- C4 (confirmed): with a script split into three synthesis chunks where the
POST for chunk 2 returns a non-success status and chunks 1 and 3 succeed, the
failed chunk is skipped — each chunk is POSTed exactly once, no retry — the
operation is not aborted (it returns the audio output path), and the assembled
audio artifact contains exactly fragments 1 and 3 in that order; the temp
fragment files are cleaned up. -/
theorem claim_c4_partial (env : TTSEnv) (text out voice : Str) (fs : FS)
    (c1 c2 c3 : Str) (b1 b2 b3 : List Nat) (s2 : Nat)
    (hsplit : splitTextForTTS text 4000 = [c1, c2, c3])
    (h0 : env.post 0 = PostResult.resp 200 b1)
    (h1 : env.post 1 = PostResult.resp s2 b2) (hs2 : s2 ≠ 200)
    (h2 : env.post 2 = PostResult.resp 200 b3)
    (henc : env.encoderOk = true) (hout : out ≠ filelistPath) :
    (generateAudioOpenAI env text out voice fs).ret = out ∧
    (generateAudioOpenAI env text out voice fs).fs out =
      some (FileData.audio (b1 ++ b3)) ∧
    (generateAudioOpenAI env text out voice fs).fs (chunkFile out 0) = none ∧
    (generateAudioOpenAI env text out voice fs).fs (chunkFile out 2) = none ∧
    (generateAudioOpenAI env text out voice fs).log =
      [enhanceSpeechDynamics c1 voice, enhanceSpeechDynamics c2 voice,
        enhanceSpeechDynamics c3 voice] := by
  have hf0fl := chunkFile_ne_filelist out 0
  have hf2fl := chunkFile_ne_filelist out 2
  have hf02 : chunkFile out 0 ≠ chunkFile out 2 :=
    chunkFile_ne out 0 2 (by decide)
  have houtf0 := ne_chunkFile out 0
  have houtf2 := ne_chunkFile out 2
  have hloop : ttsLoop env.post voice out [c1, c2, c3] 0 fs [] [] =
      LoopOut.done
        (fsWrite (chunkFile out 2) (FileData.audio b3)
          (fsWrite (chunkFile out 0) (FileData.audio b1) fs))
        [chunkFile out 0, chunkFile out 2]
        [enhanceSpeechDynamics c1 voice, enhanceSpeechDynamics c2 voice,
          enhanceSpeechDynamics c3 voice] := by
    rw [ttsLoop_cons_ok h0, ttsLoop_cons_skip h1 hs2, ttsLoop_cons_ok h2,
      ttsLoop_nil]
    simp
  unfold generateAudioOpenAI
  simp only [hsplit, hloop]
  refine ⟨?_, ?_, ?_, ?_, ?_⟩ <;>
    simp [removeEach, removeIfExists_eq, combineAudioFiles, henc, concatContents,
      fsRemove, fsWrite, houtf0, houtf2, houtf0.symm, houtf2.symm, hf0fl, hf2fl,
      hf02, hf02.symm, hout]

/-! ## Encoder fallback (C6), for any run with at least two fragments

The general statement needs that fragment paths with distinct indices are
distinct, i.e. that the decimal rendering `Nat.toDigits 10` is injective —
proved by re-parsing the digits. -/

/-- The numeric value of a decimal digit character. -/
def digitVal (c : Char) : Nat := c.toNat - '0'.toNat

/-- Left-to-right decimal parse of a digit string: the value and the weight
`10 ^ length`. -/
def parseR : List Char → Nat × Nat
  | [] => (0, 1)
  | c :: cs =>
    let r := parseR cs
    (digitVal c * r.2 + r.1, 10 * r.2)

theorem digitVal_digitChar {m : Nat} (h : m < 10) :
    digitVal (Nat.digitChar m) = m := by
  interval_cases m <;> rfl

theorem parseR_toDigitsCore :
    ∀ (fuel n : Nat) (ds : List Char), n < 10 ^ fuel →
      (parseR (Nat.toDigitsCore 10 fuel n ds)).1 =
        n * (parseR ds).2 + (parseR ds).1 := by
  intro fuel
  induction fuel with
  | zero =>
    intro n ds hn
    simp at hn
    subst hn
    simp [Nat.toDigitsCore]
  | succ f ih =>
    intro n ds hn
    simp only [Nat.toDigitsCore]
    by_cases h : n / 10 = 0
    · rw [if_pos h]
      have hn10 : n < 10 := by omega
      have h1 : (parseR (Nat.digitChar (n % 10) :: ds)).1 =
          digitVal (Nat.digitChar (n % 10)) * (parseR ds).2 + (parseR ds).1 := rfl
      rw [h1, digitVal_digitChar (Nat.mod_lt n (by norm_num)),
        Nat.mod_eq_of_lt hn10]
    · rw [if_neg h]
      have hlt : n / 10 < 10 ^ f := by
        refine (Nat.div_lt_iff_lt_mul (by norm_num)).mpr ?_
        rw [pow_succ] at hn
        exact hn
      rw [ih (n / 10) (Nat.digitChar (n % 10) :: ds) hlt]
      have h1 : (parseR (Nat.digitChar (n % 10) :: ds)).1 =
          digitVal (Nat.digitChar (n % 10)) * (parseR ds).2 + (parseR ds).1 := rfl
      have h2 : (parseR (Nat.digitChar (n % 10) :: ds)).2 = 10 * (parseR ds).2 := rfl
      rw [h1, h2, digitVal_digitChar (Nat.mod_lt n (by norm_num))]
      have hdm : n / 10 * 10 + n % 10 = n := by omega
      calc n / 10 * (10 * (parseR ds).2) + (n % 10 * (parseR ds).2 + (parseR ds).1)
          = (n / 10 * 10 + n % 10) * (parseR ds).2 + (parseR ds).1 := by ring
        _ = n * (parseR ds).2 + (parseR ds).1 := by rw [hdm]

theorem parseR_toDigits (n : Nat) : (parseR (Nat.toDigits 10 n)).1 = n := by
  have hn : n < 10 ^ (n + 1) :=
    lt_of_lt_of_le (Nat.lt_pow_self (by norm_num) n)
      (Nat.pow_le_pow_right (by norm_num) (Nat.le_succ n))
  unfold Nat.toDigits
  rw [parseR_toDigitsCore (n + 1) n [] hn]
  simp [parseR]

theorem toDigits_ten_inj {m n : Nat} (h : Nat.toDigits 10 m = Nat.toDigits 10 n) :
    m = n := by
  have h2 := congrArg (fun l => (parseR l).1) h
  simpa [parseR_toDigits] using h2

theorem chunkFile_inj (out : Str) {i j : Nat}
    (h : chunkFile out i = chunkFile out j) : i = j := by
  unfold chunkFile at h
  have h2 : Nat.toDigits 10 i ++ ".mp3".toList =
      Nat.toDigits 10 j ++ ".mp3".toList := List.append_cancel_left h
  exact toDigits_ten_inj (List.append_cancel_right h2)

/-- The successful POSTs among calls `i, i+1, ..., i+k-1`: index and response
bytes, in call order.  This is the list of audio fragments the loop of
`_generate_audio_openai` produces (one temp file per 200 response). -/
def postSuccesses (post : Nat → PostResult) : Nat → Nat → List (Nat × List Nat)
  | 0, _ => []
  | k + 1, i =>
    match post i with
    | PostResult.resp st b =>
      if st = 200 then (i, b) :: postSuccesses post k (i + 1)
      else postSuccesses post k (i + 1)
    | PostResult.netFail => postSuccesses post k (i + 1)

theorem postSuccesses_le (post : Nat → PostResult) :
    ∀ (k i j : Nat) (b : List Nat), (j, b) ∈ postSuccesses post k i → i ≤ j := by
  intro k
  induction k with
  | zero =>
    intro i j b h
    simp [postSuccesses] at h
  | succ k ih =>
    intro i j b h
    simp only [postSuccesses] at h
    cases hp : post i with
    | resp st bb =>
      rw [hp] at h
      simp only at h
      split at h
      · rcases List.mem_cons.mp h with h | h
        · simp only [Prod.mk.injEq] at h
          omega
        · have := ih (i + 1) j b h
          omega
      · have := ih (i + 1) j b h
        omega
    | netFail =>
      rw [hp] at h
      simp only at h
      have := ih (i + 1) j b h
      omega

theorem removeEach_apply :
    ∀ (ps : List Str) (fs : FS) (q : Str),
      removeEach ps fs q = if q ∈ ps then none else fs q := by
  intro ps
  induction ps with
  | nil =>
    intro fs q
    simp [removeEach]
  | cons p ps ih =>
    intro fs q
    have hstep : removeEach (p :: ps) fs = removeEach ps (removeIfExists p fs) := rfl
    rw [hstep, ih, removeIfExists_eq]
    by_cases h1 : q ∈ ps
    · simp [h1]
    · by_cases h2 : q = p
      · simp [h1, h2, fsRemove]
      · simp [h1, h2, fsRemove]

/-- Any run of the POST loop in which the endpoint is reachable (no raised
network error) completes normally; its temp-file list is one
`f"{output_path}_chunk_{i}.mp3"` per successful POST, in order; the filesystem
is changed only at those paths; and each fragment file holds the bytes its
POST returned (distinct indices give distinct paths, by `chunkFile_inj`). -/
theorem ttsLoop_done_general (post : Nat → PostResult) (voice out : Str)
    (hnet : ∀ j, post j ≠ PostResult.netFail) :
    ∀ (cs : List Str) (i : Nat) (fs : FS) (temps log : List Str),
      ∃ fs2 log2,
        ttsLoop post voice out cs i fs temps log =
          LoopOut.done fs2
            (temps ++ (postSuccesses post cs.length i).map (fun s => chunkFile out s.1))
            log2 ∧
        (∀ q, (∀ j, i ≤ j → q ≠ chunkFile out j) → fs2 q = fs q) ∧
        (∀ j b, (j, b) ∈ postSuccesses post cs.length i →
          fs2 (chunkFile out j) = some (FileData.audio b)) := by
  intro cs
  induction cs with
  | nil =>
    intro i fs temps log
    refine ⟨fs, log, ?_, fun q _ => rfl, ?_⟩
    · simp [ttsLoop, postSuccesses]
    · intro j b h
      simp [postSuccesses] at h
  | cons c cs ih =>
    intro i fs temps log
    cases hp : post i with
    | netFail => exact absurd hp (hnet i)
    | resp st bb =>
      by_cases hst : st = 200
      · subst hst
        obtain ⟨fs2, log2, heq, hframe, hvals⟩ :=
          ih (i + 1) (fsWrite (chunkFile out i) (FileData.audio bb) fs)
            (temps ++ [chunkFile out i]) (log ++ [enhanceSpeechDynamics c voice])
        have hsc : postSuccesses post (c :: cs).length i =
            (i, bb) :: postSuccesses post cs.length (i + 1) := by
          simp [postSuccesses, hp]
        refine ⟨fs2, log2, ?_, ?_, ?_⟩
        · rw [ttsLoop_cons_ok hp, heq, hsc]
          simp
        · intro q hq
          rw [hframe q (fun j hj => hq j (by omega))]
          unfold fsWrite
          rw [if_neg (hq i (le_refl i))]
        · intro j b hmem
          rw [hsc] at hmem
          rcases List.mem_cons.mp hmem with hmem | hmem
          · simp only [Prod.mk.injEq] at hmem
            obtain ⟨hj, hb⟩ := hmem
            subst hj
            subst hb
            have hother : ∀ j2, j + 1 ≤ j2 → chunkFile out j ≠ chunkFile out j2 := by
              intro j2 hj2 heq2
              have := chunkFile_inj out heq2
              omega
            rw [hframe (chunkFile out j) hother]
            unfold fsWrite
            rw [if_pos rfl]
          · exact hvals j b hmem
      · obtain ⟨fs2, log2, heq, hframe, hvals⟩ :=
          ih (i + 1) fs temps (log ++ [enhanceSpeechDynamics c voice])
        have hsc : postSuccesses post (c :: cs).length i =
            postSuccesses post cs.length (i + 1) := by
          simp [postSuccesses, hp, hst]
        refine ⟨fs2, log2, ?_, ?_, ?_⟩
        · rw [ttsLoop_cons_skip hp hst, heq, hsc]
        · intro q hq
          exact hframe q (fun j hj => hq j (by omega))
        · intro j b hmem
          rw [hsc] at hmem
          exact hvals j b hmem

/-- C6 (confirmed): in any run where the endpoint is reachable, at least two
audio fragments are produced (the successful POSTs are `(j1, b1)` followed by
at least one more), and the external encoder is unavailable or fails, the
assembly fallback returns the first fragment verbatim as the final artifact at
the output path, every fragment's temp file is discarded, and no exception is
raised (the call returns the audio output path normally). -/
theorem claim_c6_encoder_fallback (env : TTSEnv) (text out voice : Str) (fs : FS)
    (j1 : Nat) (b1 : List Nat) (rest : List (Nat × List Nat))
    (hnet : ∀ j, env.post j ≠ PostResult.netFail)
    (hsucc : postSuccesses env.post (splitTextForTTS text 4000).length 0 =
      (j1, b1) :: rest)
    (htwo : rest ≠ []) (henc : env.encoderOk = false) :
    (generateAudioOpenAI env text out voice fs).ret = out ∧
    (generateAudioOpenAI env text out voice fs).fs out =
      some (FileData.audio b1) ∧
    (∀ j b, (j, b) ∈ postSuccesses env.post (splitTextForTTS text 4000).length 0 →
      (generateAudioOpenAI env text out voice fs).fs (chunkFile out j) = none) := by
  obtain ⟨fs2, log2, heq, hframe, hvals⟩ :=
    ttsLoop_done_general env.post voice out hnet (splitTextForTTS text 4000)
      0 fs [] []
  rw [hsucc] at heq hvals
  rcases rest with _ | ⟨s2, rest2⟩
  · exact absurd rfl htwo
  have hb1 : fs2 (chunkFile out j1) = some (FileData.audio b1) :=
    hvals j1 b1 (List.mem_cons_self _ _)
  have hmem_temps : ∀ j b, (j, b) ∈ (j1, b1) :: s2 :: rest2 →
      chunkFile out j ∈
        chunkFile out j1 :: chunkFile out s2.1 ::
          rest2.map (fun s => chunkFile out s.1) := by
    intro j b hmem
    rcases List.mem_cons.mp hmem with hmem | hmem
    · simp only [Prod.mk.injEq] at hmem
      exact hmem.1 ▸ List.mem_cons_self _ _
    rcases List.mem_cons.mp hmem with hmem | hmem
    · subst hmem
      exact List.mem_cons_of_mem _ (List.mem_cons_self _ _)
    · refine List.mem_cons_of_mem _ (List.mem_cons_of_mem _ ?_)
      exact List.mem_map.mpr ⟨(j, b), hmem, rfl⟩
  have hout_notin : out ∉
      chunkFile out j1 :: chunkFile out s2.1 ::
        rest2.map (fun s => chunkFile out s.1) := by
    intro hmem
    rcases List.mem_cons.mp hmem with hmem | hmem
    · exact ne_chunkFile out j1 hmem
    rcases List.mem_cons.mp hmem with hmem | hmem
    · exact ne_chunkFile out s2.1 hmem
    · obtain ⟨s, _, hs⟩ := List.mem_map.mp hmem
      exact ne_chunkFile out s.1 hs.symm
  have hb1' : fsWrite filelistPath
      (FileData.text (filelistContent
        (chunkFile out j1 :: chunkFile out s2.1 ::
          rest2.map (fun s => chunkFile out s.1)))) fs2 (chunkFile out j1) =
      some (FileData.audio b1) := by
    unfold fsWrite
    rw [if_neg (chunkFile_ne_filelist out j1), hb1]
  unfold generateAudioOpenAI
  simp only [heq, List.nil_append, List.map_cons]
  refine ⟨?_, ?_, ?_⟩
  · trivial
  · rw [removeEach_apply, if_neg hout_notin]
    unfold combineAudioFiles
    rw [henc]
    simp only [Bool.false_eq_true, if_false]
    rw [hb1']
    simp only [Option.isSome_some, if_true]
    unfold fsRename
    rw [if_pos rfl, hb1']
  · intro j b hmem
    rw [hsucc] at hmem
    rw [removeEach_apply, if_pos (hmem_temps j b hmem)]

/- Concrete witness inputs: paragraphs of exactly 4000 characters force one
chunk per paragraph under `max_chunk_size = 4000`. -/

theorem splitNL_append (xs ys : Str) (hx : '\n' ∉ xs) :
    splitNL (xs ++ '\n' :: ys) = xs :: splitNL ys := by
  induction xs with
  | nil => simp [splitNL]
  | cons c cs ih =>
    have hc : ¬ c = '\n' := fun h => hx (h ▸ List.mem_cons_self c cs)
    have hx' : '\n' ∉ cs := fun h => hx (List.mem_cons_of_mem c h)
    simp only [List.cons_append, splitNL, if_neg hc, List.append_eq]
    rw [ih hx']

theorem splitNL_single (xs : Str) (hx : '\n' ∉ xs) : splitNL xs = [xs] := by
  induction xs with
  | nil => rfl
  | cons c cs ih =>
    have hc : ¬ c = '\n' := fun h => hx (h ▸ List.mem_cons_self c cs)
    have hx' : '\n' ∉ cs := fun h => hx (List.mem_cons_of_mem c h)
    simp only [splitNL, if_neg hc]
    rw [ih hx']

/-- A paragraph of exactly 4000 characters (the openai TTS chunk limit). -/
def wPara : Str := List.replicate 4000 'a'

/-- Three 4000-character paragraphs: splits into exactly three TTS chunks. -/
def wText3 : Str := wPara ++ '\n' :: (wPara ++ '\n' :: wPara)

/-- A 4000-character paragraph and a one-character paragraph: two chunks. -/
def wText2 : Str := wPara ++ '\n' :: "b".toList

theorem wPara_length : wPara.length = 4000 := by
  unfold wPara
  rw [List.length_replicate]

theorem wPara_no_newline : '\n' ∉ wPara := by
  unfold wPara
  rw [List.mem_replicate]
  rintro ⟨-, h⟩
  exact absurd h (by decide)

theorem wPara_ne_nil : wPara ≠ [] := by
  intro h
  have hlen := congrArg List.length h
  rw [wPara_length] at hlen
  simp at hlen

theorem wText3_split : splitTextForTTS wText3 4000 = [wPara, wPara, wPara] := by
  have hcond : (4000 : Nat) < wPara.length + wPara.length := by
    rw [wPara_length]
    omega
  unfold splitTextForTTS wText3
  rw [splitNL_append _ _ wPara_no_newline, splitNL_append _ _ wPara_no_newline,
    splitNL_single _ wPara_no_newline, pack_start,
    packParagraphs_cons_flush _ _ _ _ _ hcond wPara_ne_nil,
    packParagraphs_cons_flush _ _ _ _ _ hcond wPara_ne_nil,
    packParagraphs_nil_ne _ _ _ wPara_ne_nil]
  simp

theorem wText2_split : splitTextForTTS wText2 4000 = [wPara, "b".toList] := by
  have hcond : (4000 : Nat) < wPara.length + ("b".toList).length := by
    rw [wPara_length]
    decide
  unfold splitTextForTTS wText2
  rw [splitNL_append _ _ wPara_no_newline, splitNL_single _ (by decide),
    pack_start,
    packParagraphs_cons_flush _ _ _ _ _ hcond wPara_ne_nil,
    packParagraphs_nil_ne _ _ _ (by decide)]
  simp

/-- The endpoint of the C4 witness: POST 0 succeeds with bytes `[1]`, POST 1
answers 500, POST 2 succeeds with bytes `[3]`; the encoder is available. -/
def envC4 : TTSEnv :=
  ⟨fun i => if i = 0 then PostResult.resp 200 [1]
    else if i = 1 then PostResult.resp 500 [2] else PostResult.resp 200 [3],
   true, false, false, false, [], []⟩

/-- C4 (witness): partial synthesis at a concrete input — three 4000-character
chunks, the middle POST failing with 500. -/
theorem claim_c4_partial_witness :
    (splitTextForTTS wText3 4000 = [wPara, wPara, wPara] ∧
      envC4.post 0 = PostResult.resp 200 [1] ∧
      envC4.post 1 = PostResult.resp 500 [2] ∧ (500 : Nat) ≠ 200 ∧
      envC4.post 2 = PostResult.resp 200 [3] ∧ envC4.encoderOk = true ∧
      "out.mp3".toList ≠ filelistPath) ∧
    ((generateAudioOpenAI envC4 wText3 "out.mp3".toList "alloy".toList fsEmpty).ret
        = "out.mp3".toList ∧
      (generateAudioOpenAI envC4 wText3 "out.mp3".toList "alloy".toList fsEmpty).fs
          "out.mp3".toList = some (FileData.audio ([1] ++ [3])) ∧
      (generateAudioOpenAI envC4 wText3 "out.mp3".toList "alloy".toList fsEmpty).fs
          (chunkFile "out.mp3".toList 0) = none ∧
      (generateAudioOpenAI envC4 wText3 "out.mp3".toList "alloy".toList fsEmpty).fs
          (chunkFile "out.mp3".toList 2) = none ∧
      (generateAudioOpenAI envC4 wText3 "out.mp3".toList "alloy".toList fsEmpty).log
        = [enhanceSpeechDynamics wPara "alloy".toList,
           enhanceSpeechDynamics wPara "alloy".toList,
           enhanceSpeechDynamics wPara "alloy".toList]) :=
  ⟨⟨wText3_split, rfl, rfl, by decide, rfl, rfl, by decide⟩,
    claim_c4_partial envC4 wText3 "out.mp3".toList "alloy".toList fsEmpty
      wPara wPara wPara [1] [2] [3] 500 wText3_split rfl rfl (by decide) rfl rfl
      (by decide)⟩

/-- The endpoint of the C6 witness: both POSTs succeed, the encoder is
unavailable. -/
def envC6 : TTSEnv :=
  ⟨fun i => if i = 0 then PostResult.resp 200 [1] else PostResult.resp 200 [2],
   false, false, false, false, [], []⟩

/-- C6 (witness): encoder fallback at a concrete input — two chunks, both
POSTs succeeding, ffmpeg absent; fragment 1 becomes the artifact and both
fragment files are discarded. -/
theorem claim_c6_encoder_fallback_witness :
    ((∀ j, envC6.post j ≠ PostResult.netFail) ∧
      postSuccesses envC6.post (splitTextForTTS wText2 4000).length 0 =
        (0, [1]) :: [(1, [2])] ∧
      ([(1, [2])] : List (Nat × List Nat)) ≠ [] ∧
      envC6.encoderOk = false) ∧
    ((generateAudioOpenAI envC6 wText2 "out.mp3".toList "alloy".toList fsEmpty).ret
        = "out.mp3".toList ∧
      (generateAudioOpenAI envC6 wText2 "out.mp3".toList "alloy".toList fsEmpty).fs
          "out.mp3".toList = some (FileData.audio [1]) ∧
      (∀ j b, (j, b) ∈ postSuccesses envC6.post (splitTextForTTS wText2 4000).length 0 →
        (generateAudioOpenAI envC6 wText2 "out.mp3".toList "alloy".toList fsEmpty).fs
          (chunkFile "out.mp3".toList j) = none)) :=
  have hnet : ∀ j, envC6.post j ≠ PostResult.netFail := by
    intro j
    by_cases h : j = 0 <;> simp [envC6, h]
  have hsucc : postSuccesses envC6.post (splitTextForTTS wText2 4000).length 0 =
      (0, [1]) :: [(1, [2])] := by
    rw [wText2_split]
    rfl
  ⟨⟨hnet, hsucc, by simp, rfl⟩,
    claim_c6_encoder_fallback envC6 wText2 "out.mp3".toList "alloy".toList
      fsEmpty 0 [1] [(1, [2])] hnet hsucc (by simp) rfl⟩

/-- Modelled from the spec: the pipeline variant that delegates synthesis to
`TextToSpeechService` is not under src/ — src/app.py constructs
`PdfToPodcastService(..., tts_api_key=...)`, a parameter src/service.py's
`__init__` does not accept, and src/app.py's inline path explicitly handles a
`.txt` return from `create_podcast`, which src/service.py never produces.
Per spec §4.7, once extraction and script generation have succeeded the
synthesis step runs and its returned artifact (audio path, or text path on
degradation) is the job's terminal artifact; the synthesis step itself is the
`_generate_audio_openai` embedding from src/tts_service.py. -/
def pipelineTerminalArtifact (env : TTSEnv) (script outputAudioPath voice : Str)
    (fs : FS) : FS × Str :=
  let r := generateAudioOpenAI env script outputAudioPath voice fs
  (r.fs, r.ret)

/-- C1 (confirmed): if every remote speech-synthesis call fails (non-success
response or unreachable endpoint), the pipeline still completes without
raising, given extraction and script generation succeeded: the terminal
artifact is the text file at `output_path.replace('.mp3', '.txt')` whose
content is the input script verbatim — never a bare failure. -/
theorem claim_c1_degradation (env : TTSEnv) (script outputAudioPath voice : Str)
    (fs : FS)
    (hpost : ∀ i st content, env.post i = .resp st content → st ≠ 200) :
    pipelineTerminalArtifact env script outputAudioPath voice fs =
      (fsWrite (pyReplace ".mp3".toList ".txt".toList outputAudioPath)
        (FileData.text script) fs,
       pyReplace ".mp3".toList ".txt".toList outputAudioPath) ∧
    (pipelineTerminalArtifact env script outputAudioPath voice fs).1
        (pyReplace ".mp3".toList ".txt".toList outputAudioPath) =
      some (FileData.text script) := by
  have hmain : pipelineTerminalArtifact env script outputAudioPath voice fs =
      (fsWrite (pyReplace ".mp3".toList ".txt".toList outputAudioPath)
        (FileData.text script) fs,
       pyReplace ".mp3".toList ".txt".toList outputAudioPath) := by
    unfold pipelineTerminalArtifact generateAudioOpenAI
    rcases ttsLoop_all_fail env.post hpost voice outputAudioPath
        (splitTextForTTS script 4000) 0 fs [] [] with ⟨log2, hl⟩ | ⟨log2, hl⟩ <;>
      simp only [hl]
  refine ⟨hmain, ?_⟩
  rw [hmain]
  simp [fsWrite]

/-- The all-failing endpoint used by the C1 witness. -/
def envAllFail : TTSEnv :=
  ⟨fun _ => PostResult.resp 500 [], true, false, false, false, [], []⟩

/-- C1 (witness): total degradation at a concrete input — every POST answers
500, the script is `"Hello"`, the output path `"podcast.mp3"`. -/
theorem claim_c1_degradation_witness :
    (∀ i st content, envAllFail.post i = .resp st content → st ≠ 200) ∧
      pipelineTerminalArtifact envAllFail "Hello".toList "podcast.mp3".toList
          "alloy".toList fsEmpty =
        (fsWrite (pyReplace ".mp3".toList ".txt".toList "podcast.mp3".toList)
          (FileData.text "Hello".toList) fsEmpty,
         pyReplace ".mp3".toList ".txt".toList "podcast.mp3".toList) :=
  have hpost : ∀ i st content, envAllFail.post i = .resp st content → st ≠ 200 := by
    intro i st content h
    cases h
    decide
  ⟨hpost,
    (claim_c1_degradation envAllFail "Hello".toList "podcast.mp3".toList
      "alloy".toList fsEmpty hpost).1⟩

/-! ## Script generation (src/service.py, `_transform_to_podcast`) -/

/-- The three prompt templates of `_transform_to_podcast`, by chunk position:
the base template used for chunk 0, the continuation template for middle
chunks, and the conclusion template for the last chunk (when there is more
than one). -/
inductive PromptKind where
  | main
  | cont
  | conclude
deriving DecidableEq

/-- The base template (chunk 0) of `_transform_to_podcast`, verbatim: it
instructs both the opening (item 1, warm welcome and introduction) and the
closing (item 5, summary and conclusion). -/
def mainTemplate : Str :=
  "You are an expert podcaster who creates engaging, conversational content.\n\nYour task is to transform the following PDF content into a natural-sounding podcast script. \n\nThe script should:\n1. Begin with a warm welcome and brief introduction\n2. Present the content in a conversational, engaging tone\n3. Break complex concepts into digestible segments\n4. Include occasional rhetorical questions or hooks to maintain listener interest\n5. End with a summary and conclusion\n\nRemember, this should sound like people talking, not like someone reading an article.\n\nPDF CONTENT:\n{text}\n\nPODCAST SCRIPT:".toList

/-- The continuation template (middle chunks), verbatim. -/
def continueTemplate : Str :=
  "Continue the podcast with the following content:\n                    \n{text}\n\nContinue the conversational podcast tone without any introduction or conclusion.".toList

/-- The conclusion template (last chunk when `n > 1`), verbatim. -/
def concludeTemplate : Str :=
  "Continue the podcast and provide a thoughtful conclusion for this content:\n                    \n{text}\n\nConclude the podcast with a summary of key points and a friendly sign-off.".toList

/-- The template text each prompt kind stands for. -/
def templateFor : PromptKind → Str
  | .main => mainTemplate
  | .cont => continueTemplate
  | .conclude => concludeTemplate

/-- The `for i, chunk in enumerate(chunks)` loop of `_transform_to_podcast`:
chunk 0 gets the base (introduction) template, the last chunk (`i == n - 1`)
the conclusion template, middle chunks the continuation template; for each
chunk one remote call `llm k chunk` is made.  Returns the list of calls made
(template kind and chunk, in order) and the list of outputs. -/
def transformLoop (llm : PromptKind → Str → Str) (n : Nat) :
    List Str → Nat → List (PromptKind × Str) × List Str
  | [], _ => ([], [])
  | c :: cs, i =>
    let k := if i = 0 then PromptKind.main
      else if i = n - 1 then PromptKind.conclude else PromptKind.cont
    let r := transformLoop llm n cs (i + 1)
    ((k, c) :: r.1, llm k c :: r.2)

/-- `PdfToPodcastService._transform_to_podcast`: chunk the text (the chunking
is done by the external `RecursiveCharacterTextSplitter`, here an oracle
parameter `split`), run one remote generation call per chunk by position, and
join the outputs with `"\n\n"`.  Returns the calls made and the script. -/
def transformToPodcast (split : Str → List Str) (llm : PromptKind → Str → Str)
    (text : Str) : List (PromptKind × Str) × Str :=
  let chunks := split text
  let r := transformLoop llm chunks.length chunks 0
  (r.1, joinSep "\n\n".toList r.2)

set_option maxRecDepth 20000 in
/-- C5 (confirmed): when the extracted text fits in a single generation chunk,
the script generator issues exactly one remote call, with the base template —
which instructs both the opening (introduction) and the closing (conclusion) —
and the returned script is that single call's output as one string. -/
theorem claim_c5_single_chunk (split : Str → List Str)
    (llm : PromptKind → Str → Str) (text c : Str) (h : split text = [c]) :
    (transformToPodcast split llm text).1 = [(PromptKind.main, c)] ∧
    (transformToPodcast split llm text).2 = llm PromptKind.main c ∧
    occursIn "introduction".toList (templateFor PromptKind.main) = true ∧
    occursIn "conclusion".toList (templateFor PromptKind.main) = true := by
  refine ⟨?_, ?_, ?_, ?_⟩
  · simp [transformToPodcast, h, transformLoop]
  · simp [transformToPodcast, h, transformLoop, joinSep]
  · decide
  · decide

/-- The splitter and model of the C5 witness. -/
def splitW : Str → List Str := fun _ => ["chunk".toList]

/-- The remote model of the C5 witness: answers a fixed script. -/
def llmW : PromptKind → Str → Str := fun _ _ => "script".toList

/-- C5 (witness): the single-chunk behaviour at a concrete input. -/
theorem claim_c5_single_chunk_witness :
    splitW "doc".toList = ["chunk".toList] ∧
      ((transformToPodcast splitW llmW "doc".toList).1 =
          [(PromptKind.main, "chunk".toList)] ∧
        (transformToPodcast splitW llmW "doc".toList).2 =
          llmW PromptKind.main "chunk".toList ∧
        occursIn "introduction".toList (templateFor PromptKind.main) = true ∧
        occursIn "conclusion".toList (templateFor PromptKind.main) = true) :=
  ⟨rfl, claim_c5_single_chunk splitW llmW "doc".toList "chunk".toList rfl⟩

/-! ## Document cleanup (C7): src/service.py `create_podcast` and src/app.py
`convert_pdf_to_podcast` -/

/-- Events of one pipeline run: the three step invocations and the deletion of
the uploaded source document. -/
inductive PipeEv where
  | extractCall
  | transformCall
  | synthCall
  | removeDoc
deriving DecidableEq, BEq

/-- `PdfToPodcastService.create_podcast(pdf_path, output_audio_path)` as an
event trace: extraction, script generation and synthesis run in order, each
either succeeding or raising (a raise aborts the rest); on full success the
source document is removed if it exists (`if os.path.exists: os.remove`).
Returns the events, whether the document still exists, and whether an
exception propagated.  `sOk = false` covers the src/service.py `_generate_audio`
variant, which re-raises synthesis errors; in the `TextToSpeechService`
variant synthesis never raises (`sOk = true`). -/
def createPodcastRun (eOk tOk sOk doc : Bool) : List PipeEv × Bool × Bool :=
  if eOk = false then ([.extractCall], doc, true)
  else if tOk = false then ([.extractCall, .transformCall], doc, true)
  else if sOk = false then ([.extractCall, .transformCall, .synthCall], doc, true)
  else if doc then
    ([.extractCall, .transformCall, .synthCall, .removeDoc], false, false)
  else ([.extractCall, .transformCall, .synthCall], doc, false)

/-- src/app.py `convert_pdf_to_podcast` around `create_podcast` (the uploaded
document exists when the call starts): on an exception, the handler removes
the document if it still exists.  Returns the events and whether the document
still exists. -/
def convertRun (eOk tOk sOk : Bool) : List PipeEv × Bool :=
  let r := createPodcastRun eOk tOk sOk true
  if r.2.2 then
    if r.2.1 then (r.1 ++ [.removeDoc], false) else (r.1, r.2.1)
  else (r.1, r.2.1)

/-- C7 (confirmed): in every pipeline run whose extraction and script
generation succeed, the uploaded source document is deleted exactly once,
immediately after the synthesis step completes or fails — whichever comes
first, including on the audio-success path — regardless of whether synthesis
produced audio (`sOk` covers both outcomes), and the document is gone at the
end. -/
theorem claim_c7_cleanup : ∀ sOk : Bool,
    convertRun true true sOk =
      ([PipeEv.extractCall, PipeEv.transformCall, PipeEv.synthCall,
        PipeEv.removeDoc], false) ∧
    (convertRun true true sOk).1.count PipeEv.removeDoc = 1 := by
  intro sOk
  cases sOk <;> exact ⟨rfl, rfl⟩

/-! ## Speaker splitting (C8) -/

/-- The two fixed speaker labels of the two-host script format (spec §3,
`PodcastScript`; the voices `onyx`/`nova` in src/tts_service.py are keyed to
David and Sarah). -/
def speakerLabels : List Str := ["David".toList, "Sarah".toList]

/-- Modelled from the spec: the speaker-splitting routine of the two-speaker
pipeline variant is not under src/ (only its collaborators are: the per-speaker
voice enhancements in src/tts_service.py refer to David's and Sarah's voices).
Spec §4.4: a line matching `^<Label>:` starts a new utterance for that label;
its text is the remainder of the line after the colon, leading spaces
stripped. -/
def parseLabelLine (labels : List Str) (line : Str) : Option (Str × Str) :=
  labels.findSome? fun lab =>
    if leadsWith (lab ++ [':']) line then
      some (lab, (line.drop (lab.length + 1)).dropWhile (fun ch => ch == ' '))
    else none

/-- Modelled from the spec: the speaker-splitter scan (spec §4.4), absent from
src/.  Scan lines in order; a labelled line flushes any in-progress utterance
for a different label (the position index increases at flush time) and starts
a new utterance; an unlabeled nonempty line appends — space-joined, as in the
spec's scenario — to the current speaker's in-progress utterance; a labelled
line for the speaker already active continues that utterance (the spec only
flushes on a *different* label); a leading unlabeled line starts the implicit
single speaker `""`.  The final in-progress utterance is flushed at the end.
Returns the flushed utterances in position order: (label, text, index). -/
def splitSpeakersGo (labels : List Str) :
    List Str → Option (Str × Str) → Nat → List (Str × Str × Nat) →
      List (Str × Str × Nat)
  | [], active, idx, acc =>
    match active with
    | none => acc
    | some (lab, txt) => acc ++ [(lab, txt, idx)]
  | line :: rest, active, idx, acc =>
    match parseLabelLine labels line with
    | some (lab, utt) =>
      match active with
      | none => splitSpeakersGo labels rest (some (lab, utt)) idx acc
      | some (alab, atxt) =>
        if alab = lab then
          splitSpeakersGo labels rest (some (alab, atxt ++ ' ' :: utt)) idx acc
        else
          splitSpeakersGo labels rest (some (lab, utt)) (idx + 1)
            (acc ++ [(alab, atxt, idx)])
    | none =>
      if line = [] then splitSpeakersGo labels rest active idx acc
      else
        match active with
        | none => splitSpeakersGo labels rest (some ([], line)) idx acc
        | some (alab, atxt) =>
          splitSpeakersGo labels rest (some (alab, atxt ++ ' ' :: line)) idx acc

/-- Modelled from the spec: `split_speakers(script)` over the fixed two-label
set. -/
def splitSpeakers (script : Str) : List (Str × Str × Nat) :=
  splitSpeakersGo speakerLabels (splitNL script) none 0 []

/-- C8 (confirmed): the scenario script yields exactly two speakers — David
with the single utterance `"Hello there. Welcome back."` at position index 0
(the unlabeled line is appended to the preceding speaker's utterance), and
Sarah with the single utterance `"Great to be here."` at position index 1. -/
theorem claim_c8_speaker_split :
    splitSpeakers "David: Hello there.\nWelcome back.\nSarah: Great to be here.".toList =
      [("David".toList, "Hello there. Welcome back.".toList, 0),
       ("Sarah".toList, "Great to be here.".toList, 1)] ∧
    (splitSpeakers "David: Hello there.\nWelcome back.\nSarah: Great to be here.".toList).map
        (fun r => r.1) = ["David".toList, "Sarah".toList] := by
  exact ⟨by decide, by decide⟩

end SBP
